import Mathlib

/-!
Verification of the generic GORM CRUD repository (`base.go`) and its `User`
specialization / connection factory (`main` package file).

Shallow embedding conventions:
* The database is a `DBState`: an ordered list of stored `User` rows plus the
  next auto-assigned primary key.  The repository is generic over `T` in Go but
  is instantiated only at `User`; we embed it at `User` directly.
* Time (`time.Now()`) is passed explicitly as a `now : Nat` parameter; the Go
  zero time is modelled as `0`, and `gorm.DeletedAt` as `Option Nat`
  (`none` = NULL = live row).
* GORM semantics actually exercised by this code, modelled from its documented
  behaviour: the default query scope filters rows with a NULL `deleted_at`;
  `Create` runs the `BeforeCreate` hook and inserts, auto-assigning the next
  key when the entity's key is zero; `Save` runs `BeforeUpdate` and performs a
  full-record UPDATE of every field on the scoped row with that key, falling
  back to an insert when the UPDATE matches no row (and directly inserting when
  the key is zero, which the fallback branch also reproduces, since no stored
  row ever has key 0); `Delete` is a soft delete: it sets `deleted_at` on the
  scoped (live) rows with that key; `Count`/`Find` count and return live rows.
* Driver/network failures of the underlying client cannot arise in the pure
  state model; where a claim is about error propagation the underlying
  outcome is an explicit `Option String` / `Except String` parameter.
-/

/-- `User` model: ID, Name, Email, Age, CreatedAt, UpdatedAt, DeletedAt. -/
structure User where
  id : Nat
  name : String
  email : String
  age : Int
  createdAt : Nat
  updatedAt : Nat
  deletedAt : Option Nat
deriving Repr, DecidableEq

/-- `BeforeCreate` hook: stamps both timestamps with the current time. -/
def User.BeforeCreate (now : Nat) (u : User) : User :=
  { u with createdAt := now, updatedAt := now }

/-- `BeforeUpdate` hook: re-stamps only the update timestamp. -/
def User.BeforeUpdate (now : Nat) (u : User) : User :=
  { u with updatedAt := now }

/-- A row is live (visible to the default GORM scope) iff `deleted_at` IS NULL. -/
def User.isLive (u : User) : Bool := u.deletedAt.isNone

/-- The stored table: rows in insertion order, plus the next serial key. -/
structure DBState where
  rows : List User
  nextId : Nat
deriving Repr, DecidableEq

/-- A freshly migrated, empty table; serial keys start at 1. -/
def DBState.empty : DBState := ⟨[], 1⟩

/-- `Create`: run `BeforeCreate`, assign the serial key when the entity's key
is zero, insert the row.  Returns the mutated entity (Go mutates `*T` in
place, so the caller sees the assigned ID and stamped timestamps) and the new
state. -/
def BaseRepository.Create (now : Nat) (u : User) (s : DBState) : User × DBState :=
  let u1 := u.BeforeCreate now
  let u2 := { u1 with id := if u1.id = 0 then s.nextId else u1.id }
  (u2, { rows := s.rows ++ [u2],
         nextId := if u1.id = 0 then s.nextId + 1 else s.nextId })

/-- `BatchCreate`: one insert of a slice; GORM runs the per-row hooks and
assigns keys sequentially, so it acts as the fold of `Create`. -/
def BaseRepository.BatchCreate (now : Nat) (us : List User) (s : DBState) : DBState :=
  us.foldl (fun acc u => (BaseRepository.Create now u acc).2) s

/-- `GetByID`: `First(&entity, id)` — the scoped (live) row with that primary
key, or gorm.ErrRecordNotFound.  Keys are unique, so the first match is the
row `First`'s primary-key ordering would select. -/
def BaseRepository.GetByID (s : DBState) (id : Nat) : Except String User :=
  match s.rows.find? (fun r => r.id == id && r.isLive) with
  | some r => .ok r
  | none => .error "record not found"

/-- `Update`: `Save(entity)` — run `BeforeUpdate`, then a full-record UPDATE
of every field (GORM `Save` selects `*`, so zero-valued fields are written
too) on the scoped live row with the entity's key; when that UPDATE matches
no row, `Save` falls back to creating the record. -/
def BaseRepository.Update (now : Nat) (u : User) (s : DBState) : DBState :=
  let u1 := u.BeforeUpdate now
  if s.rows.any (fun r => r.id == u1.id && r.isLive) then
    { s with rows := s.rows.map (fun r => if r.id == u1.id && r.isLive then u1 else r) }
  else
    (BaseRepository.Create now u s).2

/-- `Delete`: soft delete — set `deleted_at = now` on the scoped live rows
with that key; the rows themselves are not removed.  (The hard-delete
`Unscoped` variant is commented out in the source.) -/
def BaseRepository.Delete (now : Nat) (id : Nat) (s : DBState) : DBState :=
  { s with
    rows := s.rows.map (fun r =>
      if r.id == id && r.isLive then { r with deletedAt := some now } else r) }

/-- `ListAll`: `Find` under the default scope — every live row. -/
def BaseRepository.ListAll (s : DBState) : List User :=
  s.rows.filter User.isLive

/-- `Count`: `SELECT count(*)` under the default scope — the number of live
rows. -/
def BaseRepository.Count (s : DBState) : Nat :=
  (s.rows.filter User.isLive).length

/-- `Offset(offset).Limit(limit)` applied to a result set: GORM ignores a
non-positive offset and a negative limit (both cancel the clause). -/
def BaseRepository.paginate (rows : List User) (offset limit : Int) : List User :=
  let afterOffset := if offset > 0 then rows.drop offset.toNat else rows
  if limit ≥ 0 then afterOffset.take limit.toNat else afterOffset

/-- `List(offset, limit)`: the Go body is

```
var total int64
if total, err := r.Count(ctx); err != nil { return nil, total, err }
err := r.db...Offset(offset).Limit(limit).Find(&entities).Error
return entities, total, err
```

`total, err :=` inside the `if` declares a NEW `total` scoped to that
statement, shadowing the outer `var total int64`; the checked count result is
therefore discarded and on the success path the returned total is still the
outer variable's zero value.  The pure model's count cannot fail, so only the
success path is reachable here. -/
def BaseRepository.List (s : DBState) (offset limit : Int) : List User × Nat :=
  let total : Nat := 0
  let _countResult := BaseRepository.Count s
  (BaseRepository.paginate (s.rows.filter User.isLive) offset limit, total)

/-- `GetUserByAge`: `Where("age > ?", minAge).Find(&users)` under the default
scope — live rows with age strictly greater than the threshold. -/
def UserRepository.GetUserByAge (s : DBState) (minAge : Int) : List User :=
  s.rows.filter (fun u => u.isLive && decide (minAge < u.age))

/-- `GetUserByAge` with the underlying query outcome explicit: a query error
is wrapped with the age-query-failed prefix, otherwise the rows are
returned. -/
def UserRepository.GetUserByAgeResult (queryErr : Option String) (s : DBState)
    (minAge : Int) : Except String (List User) :=
  match queryErr with
  | some e => .error ("根据年龄查询用户失败: " ++ e)
  | none => .ok (UserRepository.GetUserByAge s minAge)

/-- `CreateTable` with the underlying `AutoMigrate` outcome explicit: a
migration error is wrapped with the table-migration-failed prefix (`%T`
renders the entity type, here `*main.User`); success returns nil. -/
def BaseRepository.CreateTable (migrateErr : Option String) : Option String :=
  match migrateErr with
  | some e => some ("表 *main.User 自动迁移失败: " ++ e)
  | none => none

/-- gorm's logger levels used by the factory. -/
inductive LogLevel where
  | silent
  | error
  | warn
  | info
deriving DecidableEq, Repr

/-- The `switch cfg.LogLevel` in `NewPostgresDB`: the four enumerated strings
map to their level, anything else falls through to the `default:` arm,
`logger.Info`. -/
def logLevelOf (s : String) : LogLevel :=
  if s = "silent" then .silent
  else if s = "error" then .error
  else if s = "warn" then .warn
  else if s = "info" then .info
  else .info

/-- The `*sql.DB` obtained from the gorm handle, reduced to the outcomes of
the two fallible operations invoked on it (`Ping`, `Close`).  The pool
setters (`SetMaxIdleConns`, `SetMaxOpenConns`, `SetConnMaxLifetime`) return
nothing and cannot fail, so they contribute no error path. -/
structure SqlDB where
  pingErr : Option String
  closeErr : Option String
deriving Repr

/-- A gorm handle, reduced to the outcome of `db.DB()`. -/
structure GormHandle where
  dbResult : Except String SqlDB
deriving Repr

/-- Process-wide mutable state: the global `var DB *gorm.DB` (nil = never
opened). -/
structure Globals where
  DB : Option GormHandle
deriving Repr

/-- Outcomes of the external initialization steps of `NewPostgresDB`:
`time.LoadLocation("Asia/Shanghai")` and `gorm.Open(...)`.  The `db.DB()`
and `Ping` outcomes live inside the opened handle. -/
structure InitSteps where
  loadLocation : Except String Unit
  openResult : Except String GormHandle
deriving Repr

/-- `NewPostgresDB`: load timezone, open the connection, fetch the `*sql.DB`,
configure the pool, ping; each failure is wrapped with its prefix and
returned at once.  The global `DB` is assigned only on the all-success path,
just before returning the handle.  (The `time.Local = loc` global is not
modelled; the claim set concerns only `DB`.) -/
def NewPostgresDB (steps : InitSteps) (g : Globals) :
    Except String GormHandle × Globals :=
  match steps.loadLocation with
  | .error e => (.error ("加载时区失败: " ++ e), g)
  | .ok _ =>
    match steps.openResult with
    | .error e => (.error ("连接数据库失败: " ++ e), g)
    | .ok db =>
      match db.dbResult with
      | .error e => (.error ("failed to get database instance: " ++ e), g)
      | .ok sqlDB =>
        match sqlDB.pingErr with
        | some e => (.error ("failed to ping database: " ++ e), g)
        | none => (.ok db, { g with DB := some db })

/-- `Close`: nil global handle → nil error (no-op); otherwise `DB.DB()` and
then `sqlDB.Close()`, propagating whichever error occurs. -/
def Close (g : Globals) : Option String :=
  match g.DB with
  | none => none
  | some db =>
    match db.dbResult with
    | .error e => some e
    | .ok sqlDB => sqlDB.closeErr

/-- A fresh entity as the demo driver builds one: zero ID, zero timestamps,
not deleted. -/
def newUser (n e : String) (a : Int) : User :=
  { id := 0, name := n, email := e, age := a, createdAt := 0, updatedAt := 0,
    deletedAt := none }

/-- The demo driver's population: two single creates then one batch create,
with ages 25, 30, 28, 35. -/
def demoUsersState : DBState :=
  BaseRepository.BatchCreate 102
    [newUser "王五" "wangwu@example.com" 28, newUser "赵六" "zhaoliu@example.com" 35]
    (BaseRepository.Create 101 (newUser "李四" "lisi@example.com" 30)
      (BaseRepository.Create 100 (newUser "张三" "zhangsan@example.com" 25)
        DBState.empty).2).2

/-- Folding `Delete` over a list of identifiers. -/
def deleteAll (now : Nat) (ids : List Nat) (s : DBState) : DBState :=
  ids.foldl (fun s i => BaseRepository.Delete now i s) s

/-- A two-row state used to exhibit the `List` shadowing defect. -/
def c1State : DBState :=
  ⟨[{ id := 1, name := "张三", email := "zhangsan@example.com", age := 25,
      createdAt := 5, updatedAt := 5, deletedAt := none },
    { id := 2, name := "李四", email := "lisi@example.com", age := 30,
      createdAt := 6, updatedAt := 6, deletedAt := none }], 3⟩

/-- A stored row with a non-zero creation timestamp, for the `Update` frame
counterexample. -/
def c3OrigRow : User :=
  { id := 1, name := "张三", email := "zhangsan@example.com", age := 25,
    createdAt := 5, updatedAt := 5, deletedAt := none }

/-- The state holding just `c3OrigRow`. -/
def c3Before : DBState := ⟨[c3OrigRow], 2⟩

/-- The demo driver's own update argument `&User{ID: 1, Age: 26}`: only ID
and Age populated, every other field at its zero value. -/
def c3UpdateEntity : User :=
  { id := 1, name := "", email := "", age := 26, createdAt := 0, updatedAt := 0,
    deletedAt := none }

/-- The first row of `c1State`, as a named record for witness statements. -/
def c1Row1 : User :=
  { id := 1, name := "张三", email := "zhangsan@example.com", age := 25,
    createdAt := 5, updatedAt := 5, deletedAt := none }

/-- A user whose age equals the demo threshold 26, for the strictness part of
the age query. -/
def c2EqualAgeUser : User :=
  { id := 9, name := "同龄", email := "tongling@example.com", age := 26,
    createdAt := 1, updatedAt := 1, deletedAt := none }

/-- An initialization run whose ping fails after every earlier step
succeeded. -/
def c10BadSteps : InitSteps :=
  ⟨Except.ok (), Except.ok ⟨Except.ok ⟨some "boom", none⟩⟩⟩

/-- C1: the claim says `List(offset, limit)` returns the error-checked
`Count` result as the total.  The code violates this: the `if total, err :=`
statement shadows the outer `total`, so on the success path the returned
total is the outer variable's zero value, not the count.  On a state holding
two live records, `Count` is 2, the page is correct, yet `List` returns
total 0. -/
theorem C1_list_returns_shadowed_zero_total :
    BaseRepository.Count c1State = 2 ∧
    (BaseRepository.List c1State 0 10).1 = BaseRepository.ListAll c1State ∧
    (BaseRepository.List c1State 0 10).2 = 0 := by
  refine ⟨by decide, by decide, by decide⟩

/-- C7: errors are the underlying client's errors, wrapped with a
human-readable prefix, and are returned exactly when the underlying call
errs: `CreateTable` wraps a migration failure with the
table-migration-failed prefix and returns nil otherwise; `GetUserByAge`
wraps a query failure with the age-query-failed prefix and otherwise returns
the query rows. -/
theorem C7_error_wrapping :
    (∀ e : String, BaseRepository.CreateTable (some e) =
        some ("表 *main.User 自动迁移失败: " ++ e)) ∧
    BaseRepository.CreateTable none = none ∧
    (∀ (qe : String) (s : DBState) (m : Int),
      UserRepository.GetUserByAgeResult (some qe) s m =
        Except.error ("根据年龄查询用户失败: " ++ qe)) ∧
    (∀ (s : DBState) (m : Int),
      UserRepository.GetUserByAgeResult none s m =
        Except.ok (UserRepository.GetUserByAge s m)) :=
  ⟨fun _ => rfl, rfl, fun _ _ _ => rfl, fun _ _ => rfl⟩

/-- C8: the factory's log-verbosity switch maps each of the four enumerated
strings to its logger level, and every other string falls through to the
default arm, `Info`. -/
theorem C8_log_level_mapping (s : String)
    (h1 : s ≠ "silent") (h2 : s ≠ "error") (h3 : s ≠ "warn") (h4 : s ≠ "info") :
    logLevelOf "silent" = LogLevel.silent ∧
    logLevelOf "error" = LogLevel.error ∧
    logLevelOf "warn" = LogLevel.warn ∧
    logLevelOf "info" = LogLevel.info ∧
    logLevelOf s = LogLevel.info := by
  refine ⟨by decide, by decide, by decide, by decide, ?_⟩
  simp [logLevelOf, h1, h2, h3, h4]

/-- Witness for C8 at the unrecognized string "debug". -/
theorem C8_log_level_mapping_witness : logLevelOf "debug" = LogLevel.info :=
  (C8_log_level_mapping "debug" (by decide) (by decide) (by decide) (by decide)).2.2.2.2

/-- C9: `Close` on a never-opened (nil) global handle is a no-op returning
nil; on an opened handle it closes the underlying connection and returns
that close's error (if any). -/
theorem C9_close_noop_or_underlying :
    (∀ g : Globals, g.DB = none → Close g = none) ∧
    (∀ (g : Globals) (db : GormHandle) (sqlDB : SqlDB),
      g.DB = some db → db.dbResult = Except.ok sqlDB →
      Close g = sqlDB.closeErr) := by
  constructor
  · intro g h
    simp [Close, h]
  · intro g db sqlDB h1 h2
    simp [Close, h1, h2]

/-- Witness for C9: a nil handle closes to nil, an opened handle surfaces the
underlying close error. -/
theorem C9_close_noop_or_underlying_witness :
    Close ⟨none⟩ = none ∧
    Close ⟨some ⟨Except.ok ⟨none, some "close failed"⟩⟩⟩ = some "close failed" :=
  ⟨C9_close_noop_or_underlying.1 ⟨none⟩ rfl,
   C9_close_noop_or_underlying.2 ⟨some ⟨Except.ok ⟨none, some "close failed"⟩⟩⟩
     ⟨Except.ok ⟨none, some "close failed"⟩⟩ ⟨none, some "close failed"⟩ rfl rfl⟩

/-- C10: `NewPostgresDB` publishes the global handle only on the all-success
path: every error return leaves the global unchanged, and a success return
implies the timezone load, the open, the `DB()` fetch and the ping all
succeeded, with the global set to the opened handle. -/
theorem C10_global_assigned_only_on_success (steps : InitSteps) (g : Globals) :
    (∀ e, (NewPostgresDB steps g).1 = Except.error e → (NewPostgresDB steps g).2 = g) ∧
    (∀ db, (NewPostgresDB steps g).1 = Except.ok db →
      (NewPostgresDB steps g).2.DB = some db ∧
      steps.loadLocation = Except.ok () ∧
      steps.openResult = Except.ok db ∧
      ∃ sqlDB, db.dbResult = Except.ok sqlDB ∧ sqlDB.pingErr = none) := by
  cases hL : steps.loadLocation with
  | error e => simp [NewPostgresDB, hL]
  | ok u =>
    cases hO : steps.openResult with
    | error e => simp [NewPostgresDB, hL, hO]
    | ok db =>
      cases hD : db.dbResult with
      | error e => simp [NewPostgresDB, hL, hO, hD]
      | ok sqlDB =>
        cases hP : sqlDB.pingErr with
        | some e => simp [NewPostgresDB, hL, hO, hD, hP]
        | none =>
          constructor
          · intro e h
            simp [NewPostgresDB, hL, hO, hD, hP] at h
          · intro db' h
            simp [NewPostgresDB, hL, hO, hD, hP] at h
            subst h
            refine ⟨?_, rfl, rfl, sqlDB, hD, hP⟩
            simp [NewPostgresDB, hL, hO, hD, hP]

/-- Witness for C10: a run whose ping fails leaves a nil global nil. -/
theorem C10_global_assigned_only_on_success_witness :
    (NewPostgresDB c10BadSteps ⟨none⟩).2 = (⟨none⟩ : Globals) :=
  (C10_global_assigned_only_on_success c10BadSteps ⟨none⟩).1
    "failed to ping database: boom" rfl

/-- C2: the age query returns exactly the live users with age strictly above
the threshold, excludes a user whose age equals the threshold, and on the
demo population (ages 25, 30, 28, 35) the query at 26 returns exactly the
three users aged 30, 28 and 35. -/
theorem C2_get_user_by_age_strict (s : DBState) (minAge : Int) (u : User) :
    (u ∈ UserRepository.GetUserByAge s minAge ↔
      u ∈ s.rows ∧ u.deletedAt = none ∧ minAge < u.age) ∧
    (u.age = minAge → u ∉ UserRepository.GetUserByAge s minAge) ∧
    (UserRepository.GetUserByAge demoUsersState 26).map (fun v => (v.name, v.age)) =
      [("李四", 30), ("王五", 28), ("赵六", 35)] := by
  refine ⟨?_, ?_, by decide⟩
  · simp [UserRepository.GetUserByAge, List.mem_filter, User.isLive,
      Option.isNone_iff_eq_none]
  · intro h hmem
    simp [UserRepository.GetUserByAge, List.mem_filter, h] at hmem

/-- Witness for C2: a user of age exactly 26 is excluded by the query at
threshold 26. -/
theorem C2_get_user_by_age_strict_witness :
    c2EqualAgeUser ∉ UserRepository.GetUserByAge demoUsersState 26 :=
  (C2_get_user_by_age_strict demoUsersState 26 c2EqualAgeUser).2.1 rfl

/-- C3 counterexample: `Update` is a GORM `Save`, a full-record write.  On a
stored record with creation timestamp 5, the demo driver's own update
argument `&User{ID: 1, Age: 26}` (all other fields at their zero values)
overwrites the creation timestamp with 0 and clears the untargeted `name`
field — contradicting "changes only the targeted fields" and "creation
timestamp left untouched". -/
theorem C3_update_overwrites_creation_timestamp :
    BaseRepository.GetByID c3Before 1 = Except.ok c3OrigRow ∧
    c3OrigRow.createdAt = 5 ∧
    c3OrigRow.name = "张三" ∧
    BaseRepository.GetByID (BaseRepository.Update 10 c3UpdateEntity c3Before) 1 =
      Except.ok { c3UpdateEntity with updatedAt := 10 } ∧
    ({ c3UpdateEntity with updatedAt := 10 } : User).createdAt = 0 ∧
    ({ c3UpdateEntity with updatedAt := 10 } : User).name = "" :=
  ⟨rfl, rfl, rfl, rfl, rfl, rfl⟩

/-- If `find?` hits a row, then after mapping a function that sends every
matching row to `x` (itself matching) and fixes the rest, `find?` hits
`x`. -/
theorem find?_map_replace (p : User → Bool) (x : User) {r : User} (f : User → User)
    (hft : ∀ a, p a = true → f a = x) (hff : ∀ a, p a = false → f a = a)
    (hx : p x = true) :
    ∀ {l : List User}, l.find? p = some r → (l.map f).find? p = some x := by
  intro l
  induction l with
  | nil => intro h; cases h
  | cons a t ih =>
    intro h
    cases hpa : p a with
    | true =>
      rw [List.map_cons, hft a hpa]
      exact List.find?_cons_of_pos _ hx
    | false =>
      rw [List.find?_cons_of_neg _ (by simp [hpa])] at h
      rw [List.map_cons, hff a hpa, List.find?_cons_of_neg _ (by simp [hpa])]
      exact ih h

/-- C3 amended: `Update(entity)` on an existing (live) record performs a
full-record save — every stored field takes the caller's entity value — and
the `BeforeUpdate` hook refreshes the update timestamp; the stored creation
timestamp becomes the entity's creation-timestamp field, so it is preserved
only when the caller supplies the existing value. -/
theorem C3_update_is_full_record_save (s : DBState) (u : User) (now : Nat) (r : User)
    (h : BaseRepository.GetByID s u.id = Except.ok r) (hu : u.deletedAt = none) :
    BaseRepository.GetByID (BaseRepository.Update now u s) u.id =
      Except.ok { u with updatedAt := now } := by
  have hf : s.rows.find? (fun r' => r'.id == u.id && r'.isLive) = some r := by
    unfold BaseRepository.GetByID at h
    cases hf : s.rows.find? (fun r' => r'.id == u.id && r'.isLive) with
    | none => rw [hf] at h; cases h
    | some r'' => rw [hf] at h; cases h; rfl
  have hpr : (r.id == u.id && r.isLive) = true := by
    have := List.find?_some hf
    simpa using this
  have hany : s.rows.any (fun r' => r'.id == u.id && r'.isLive) = true :=
    List.any_eq_true.mpr ⟨r, List.mem_of_find?_eq_some hf, by simpa using hpr⟩
  have hstep : BaseRepository.Update now u s =
      { s with rows := s.rows.map (fun r' =>
          if r'.id == u.id && r'.isLive then { u with updatedAt := now } else r') } := by
    unfold BaseRepository.Update User.BeforeUpdate
    rw [if_pos hany]
  rw [hstep]
  unfold BaseRepository.GetByID
  rw [find?_map_replace (fun r' => r'.id == u.id && r'.isLive) { u with updatedAt := now }
    (fun r' => if r'.id == u.id && r'.isLive then { u with updatedAt := now } else r')
    (fun a ha => by simp only [ha, if_true]) (fun a ha => by simp only [ha, Bool.false_eq_true, if_false])
    (by simp [User.isLive, hu]) hf]

/-- Witness for C3's amended claim: the demo update on the stored row. -/
theorem C3_update_is_full_record_save_witness :
    BaseRepository.GetByID (BaseRepository.Update 10 c3UpdateEntity c3Before)
      c3UpdateEntity.id = Except.ok { c3UpdateEntity with updatedAt := 10 } :=
  C3_update_is_full_record_save c3Before c3UpdateEntity 10 c3OrigRow rfl rfl

/-- Soft-deleting key `i` turns the live rows with that key dead and leaves
every other row alone, so the live view afterwards is the previous live view
with key `i` filtered out. -/
theorem filter_live_markDel (now i : Nat) (l : List User) :
    (l.map (fun r =>
        if r.id == i && r.isLive then { r with deletedAt := some now } else r)).filter
          User.isLive
      = (l.filter User.isLive).filter (fun u => !(u.id == i)) := by
  induction l with
  | nil => rfl
  | cons a t ih =>
    rw [List.map_cons]
    by_cases h2 : a.isLive = true
    · by_cases h1 : (a.id == i) = true
      · rw [if_pos (by rw [h1, h2]; rfl),
          List.filter_cons_of_neg (fun hx => Bool.false_ne_true hx),
          List.filter_cons_of_pos h2,
          List.filter_cons_of_neg (by rw [h1]; decide)]
        exact ih
      · rw [if_neg (by rw [Bool.and_eq_true]; rintro ⟨hx, _⟩; exact h1 hx),
          List.filter_cons_of_pos h2,
          List.filter_cons_of_pos h2,
          List.filter_cons_of_pos (by
            cases hb : (a.id == i)
            · decide
            · exact absurd hb h1),
          ih]
    · rw [if_neg (by rw [Bool.and_eq_true]; rintro ⟨_, hx⟩; exact h2 hx),
        List.filter_cons_of_neg (fun hx => h2 hx),
        List.filter_cons_of_neg (fun hx => h2 hx)]
      exact ih

/-- C4: `Delete(id)` soft-deletes — the row with that identifier gets its
nullable deleted-at marker set to the deletion time while no row is removed
from storage (the row count is unchanged), and the record no longer appears
in `ListAll` or in `Count`: the live view afterwards is the previous live
view minus that identifier, `Count` counts exactly that, and no listed row
carries the deleted identifier. -/
theorem C4_delete_is_soft (s : DBState) (id now : Nat) (r : User)
    (h : BaseRepository.GetByID s id = Except.ok r) :
    (∃ r' ∈ (BaseRepository.Delete now id s).rows, r'.id = id ∧ r'.deletedAt = some now) ∧
    (BaseRepository.Delete now id s).rows.length = s.rows.length ∧
    BaseRepository.ListAll (BaseRepository.Delete now id s) =
      (BaseRepository.ListAll s).filter (fun u => !(u.id == id)) ∧
    BaseRepository.Count (BaseRepository.Delete now id s) =
      ((BaseRepository.ListAll s).filter (fun u => !(u.id == id))).length ∧
    ∀ u ∈ BaseRepository.ListAll (BaseRepository.Delete now id s), u.id ≠ id := by
  have hf : s.rows.find? (fun r' => r'.id == id && r'.isLive) = some r := by
    unfold BaseRepository.GetByID at h
    cases hf : s.rows.find? (fun r' => r'.id == id && r'.isLive) with
    | none => rw [hf] at h; cases h
    | some r'' => rw [hf] at h; cases h; rfl
  have hpr : (r.id == id && r.isLive) = true := by
    have := List.find?_some hf
    simpa using this
  have hmem := List.mem_of_find?_eq_some hf
  refine ⟨⟨{ r with deletedAt := some now }, ?_, ?_, rfl⟩,
    List.length_map _ _, filter_live_markDel now id s.rows, ?_, ?_⟩
  · have himg := List.mem_map_of_mem
      (fun r' => if r'.id == id && r'.isLive then { r' with deletedAt := some now } else r')
      hmem
    simpa [BaseRepository.Delete, hpr] using himg
  · have : r.id = id := by
      have := hpr
      simp [Bool.and_eq_true] at this
      exact this.1
    exact this
  · exact congrArg List.length (filter_live_markDel now id s.rows)
  · intro u hu
    have hu' : u ∈ (s.rows.filter User.isLive).filter (fun v => !(v.id == id)) := by
      rw [← filter_live_markDel now id s.rows]
      exact hu
    have := (List.mem_filter.mp hu').2
    simpa using this

/-- Witness for C4: soft-deleting identifier 1 from the two-row state. -/
theorem C4_delete_is_soft_witness :
    (∃ r' ∈ (BaseRepository.Delete 50 1 c1State).rows, r'.id = 1 ∧ r'.deletedAt = some 50) ∧
    (BaseRepository.Delete 50 1 c1State).rows.length = c1State.rows.length ∧
    BaseRepository.ListAll (BaseRepository.Delete 50 1 c1State) =
      (BaseRepository.ListAll c1State).filter (fun u => !(u.id == 1)) ∧
    BaseRepository.Count (BaseRepository.Delete 50 1 c1State) =
      ((BaseRepository.ListAll c1State).filter (fun u => !(u.id == 1))).length ∧
    ∀ u ∈ BaseRepository.ListAll (BaseRepository.Delete 50 1 c1State), u.id ≠ 1 :=
  C4_delete_is_soft c1State 1 50 c1Row1 rfl

/-- C6: after a successful `Create` of a fresh entity (zero ID, not
pre-deleted) at a non-zero time on a well-formed table (every stored key
below the next serial key), `GetByID` at the identifier assigned during the
create returns exactly the created entity: same name, email and age as the
input, with both timestamps non-zero (stamped by `BeforeCreate`). -/
theorem C6_create_then_get_by_id (s : DBState) (u : User) (now : Nat)
    (hid : u.id = 0) (hnow : 0 < now) (hdel : u.deletedAt = none)
    (hwf : ∀ r ∈ s.rows, r.id < s.nextId) :
    BaseRepository.GetByID (BaseRepository.Create now u s).2
        (BaseRepository.Create now u s).1.id
      = Except.ok (BaseRepository.Create now u s).1 ∧
    (BaseRepository.Create now u s).1.name = u.name ∧
    (BaseRepository.Create now u s).1.email = u.email ∧
    (BaseRepository.Create now u s).1.age = u.age ∧
    (BaseRepository.Create now u s).1.createdAt ≠ 0 ∧
    (BaseRepository.Create now u s).1.updatedAt ≠ 0 := by
  have hC : BaseRepository.Create now u s =
      ({ u with createdAt := now, updatedAt := now, id := s.nextId },
       { rows := s.rows ++ [{ u with createdAt := now, updatedAt := now, id := s.nextId }],
         nextId := s.nextId + 1 }) := by
    simp [BaseRepository.Create, User.BeforeCreate, hid]
  rw [hC]
  refine ⟨?_, rfl, rfl, rfl, by show now ≠ 0; omega, by show now ≠ 0; omega⟩
  unfold BaseRepository.GetByID
  rw [List.find?_append]
  have hnone : s.rows.find?
      (fun r => r.id == ({ u with createdAt := now, updatedAt := now, id := s.nextId } : User).id
        && r.isLive) = none := by
    rw [List.find?_eq_none]
    intro x hx
    have hlt := hwf x hx
    simp [Nat.ne_of_lt hlt]
  rw [hnone]
  simp [User.isLive, hdel]

/-- Witness for C6: creating the demo user 张三 (age 25) in an empty table at
time 100 and fetching it back by the assigned identifier. -/
theorem C6_create_then_get_by_id_witness :
    BaseRepository.GetByID
        (BaseRepository.Create 100 (newUser "张三" "zhangsan@example.com" 25) DBState.empty).2
        (BaseRepository.Create 100 (newUser "张三" "zhangsan@example.com" 25) DBState.empty).1.id
      = Except.ok (BaseRepository.Create 100 (newUser "张三" "zhangsan@example.com" 25) DBState.empty).1 ∧
    (BaseRepository.Create 100 (newUser "张三" "zhangsan@example.com" 25) DBState.empty).1.name
      = (newUser "张三" "zhangsan@example.com" 25).name ∧
    (BaseRepository.Create 100 (newUser "张三" "zhangsan@example.com" 25) DBState.empty).1.email
      = (newUser "张三" "zhangsan@example.com" 25).email ∧
    (BaseRepository.Create 100 (newUser "张三" "zhangsan@example.com" 25) DBState.empty).1.age
      = (newUser "张三" "zhangsan@example.com" 25).age ∧
    (BaseRepository.Create 100 (newUser "张三" "zhangsan@example.com" 25) DBState.empty).1.createdAt ≠ 0 ∧
    (BaseRepository.Create 100 (newUser "张三" "zhangsan@example.com" 25) DBState.empty).1.updatedAt ≠ 0 :=
  C6_create_then_get_by_id DBState.empty (newUser "张三" "zhangsan@example.com" 25) 100
    rfl (by decide) rfl (by intro r hr; cases hr)

/-- Creating a batch of fresh entities (zero key, not pre-deleted) appends
rows carrying the consecutive serial keys and leaves every pre-existing row
untouched; every appended row is live. -/
theorem batchCreate_shape (now : Nat) :
    ∀ (us : List User) (s : DBState),
      (∀ u ∈ us, u.id = 0) → (∀ u ∈ us, u.deletedAt = none) →
      (BaseRepository.BatchCreate now us s).rows.map User.id =
          s.rows.map User.id ++ List.range' s.nextId us.length ∧
      (∀ r ∈ (BaseRepository.BatchCreate now us s).rows, r ∈ s.rows ∨ r.deletedAt = none) := by
  intro us
  induction us with
  | nil =>
    intro s _ _
    exact ⟨by simp [BaseRepository.BatchCreate], fun r hr => Or.inl hr⟩
  | cons u t ih =>
    intro s hz hfresh
    have hu : u.id = 0 := hz u (List.mem_cons_self u t)
    have hC2 : (BaseRepository.Create now u s).2 =
        { rows := s.rows ++ [{ u with createdAt := now, updatedAt := now, id := s.nextId }],
          nextId := s.nextId + 1 } := by
      simp [BaseRepository.Create, User.BeforeCreate, hu]
    have hstep : BaseRepository.BatchCreate now (u :: t) s =
        BaseRepository.BatchCreate now t
          { rows := s.rows ++ [{ u with createdAt := now, updatedAt := now, id := s.nextId }],
            nextId := s.nextId + 1 } := by
      rw [← hC2]
      rfl
    rw [hstep]
    obtain ⟨hmap, hmem⟩ := ih
      { rows := s.rows ++ [{ u with createdAt := now, updatedAt := now, id := s.nextId }],
        nextId := s.nextId + 1 }
      (fun v hv => hz v (List.mem_cons_of_mem u hv))
      (fun v hv => hfresh v (List.mem_cons_of_mem u hv))
    constructor
    · rw [hmap]
      simp [List.range'_succ]
    · intro r hr
      rcases hmem r hr with hin | hdel
      · rcases List.mem_append.mp hin with h1 | h2
        · exact Or.inl h1
        · right
          have hr2 : r = { u with createdAt := now, updatedAt := now, id := s.nextId } := by
            simpa using h2
          rw [hr2]
          exact hfresh u (List.mem_cons_self u t)
      · exact Or.inr hdel

/-- On a table whose keys are distinct and whose rows are all live, the
filter on one present key and liveness selects exactly one row. -/
theorem filter_id_live_length_one (i : Nat) :
    ∀ l : List User, (l.map User.id).Nodup → (∀ r ∈ l, r.deletedAt = none) →
      i ∈ l.map User.id →
      (l.filter (fun r => r.id == i && r.isLive)).length = 1 := by
  intro l
  induction l with
  | nil =>
    intro _ _ hmem
    simp at hmem
  | cons a t ih =>
    intro hnd hlive hmem
    rw [List.map_cons] at hmem
    rw [List.map_cons, List.nodup_cons] at hnd
    obtain ⟨hnotin, hndt⟩ := hnd
    have hlivea : a.isLive = true := by
      have := hlive a (List.mem_cons_self a t)
      simp [User.isLive, this]
    by_cases hai : a.id = i
    · rw [List.filter_cons_of_pos (by rw [hlivea]; simp [hai])]
      have htail : t.filter (fun r => r.id == i && r.isLive) = [] := by
        rw [List.filter_eq_nil_iff]
        intro r hr
        have hmemid : r.id ∈ t.map User.id := List.mem_map_of_mem User.id hr
        have hne : r.id ≠ i := by
          intro he
          exact hnotin (by rw [hai, ← he]; exact hmemid)
        simp [hne]
      rw [htail]
      rfl
    · have hmem' : i ∈ t.map User.id := by
        rcases List.mem_cons.mp hmem with he | hm
        · exact absurd he.symm hai
        · exact hm
      rw [List.filter_cons_of_neg (by simp [hai])]
      exact ih hndt (fun r hr => hlive r (List.mem_cons_of_mem a hr)) hmem'

/-- Partition of the live count under a soft delete of key `i`: the previous
live count equals the live count afterwards plus the number of live rows
carrying key `i`. -/
theorem count_markDel_partition (now i : Nat) (l : List User) :
    (l.filter User.isLive).length =
      ((l.map (fun r =>
          if r.id == i && r.isLive then { r with deletedAt := some now } else r)).filter
            User.isLive).length +
        (l.filter (fun r => r.id == i && r.isLive)).length := by
  have h := @List.length_eq_length_filter_add User (l.filter User.isLive)
    (fun u => u.id == i)
  rw [List.filter_filter] at h
  rw [filter_live_markDel now i l]
  omega

/-- `Count` before a `Delete` equals `Count` after it plus the number of live
rows carrying the deleted key. -/
theorem count_delete (now i : Nat) (s : DBState) :
    BaseRepository.Count s =
      BaseRepository.Count (BaseRepository.Delete now i s) +
        (s.rows.filter (fun r => r.id == i && r.isLive)).length :=
  count_markDel_partition now i s.rows

/-- Soft-deleting key `i` does not change the live rows carrying a different
key `j`. -/
theorem filter_markDel_other (now i j : Nat) (hij : j ≠ i) (l : List User) :
    (l.map (fun r =>
        if r.id == i && r.isLive then { r with deletedAt := some now } else r)).filter
          (fun r => r.id == j && r.isLive) =
      l.filter (fun r => r.id == j && r.isLive) := by
  induction l with
  | nil => rfl
  | cons a t ih =>
    rw [List.map_cons]
    by_cases h1 : (a.id == i && a.isLive) = true
    · have hai : a.id = i := by
        rw [Bool.and_eq_true] at h1
        simpa using h1.1
      rw [if_pos h1,
        List.filter_cons_of_neg (by simp [User.isLive]),
        List.filter_cons_of_neg (by simp [hai, Ne.symm hij])]
      exact ih
    · rw [if_neg h1]
      by_cases hj : (a.id == j && a.isLive) = true
      · rw [List.filter_cons_of_pos (by exact hj), List.filter_cons_of_pos (by exact hj), ih]
      · rw [List.filter_cons_of_neg (by exact hj), List.filter_cons_of_neg (by exact hj)]
        exact ih

/-- Folding `Delete` over distinct keys, each carried by exactly one live
row, lowers `Count` by the number of keys. -/
theorem count_deleteAll (now : Nat) :
    ∀ (ds : List Nat) (s : DBState), ds.Nodup →
      (∀ i ∈ ds, (s.rows.filter (fun r => r.id == i && r.isLive)).length = 1) →
      BaseRepository.Count (deleteAll now ds s) = BaseRepository.Count s - ds.length := by
  intro ds
  induction ds with
  | nil =>
    intro s _ _
    simp [deleteAll]
  | cons i t ih =>
    intro s hnd hone
    have hstep : deleteAll now (i :: t) s = deleteAll now t (BaseRepository.Delete now i s) := rfl
    have hi : (s.rows.filter (fun r => r.id == i && r.isLive)).length = 1 :=
      hone i (List.mem_cons_self i t)
    have hcd := count_delete now i s
    have hnotin : i ∉ t := (List.nodup_cons.mp hnd).1
    have hndt : t.Nodup := (List.nodup_cons.mp hnd).2
    have hone' : ∀ j ∈ t, ((BaseRepository.Delete now i s).rows.filter
        (fun r => r.id == j && r.isLive)).length = 1 := by
      intro j hj
      have hji : j ≠ i := fun he => hnotin (he ▸ hj)
      have h2 : (BaseRepository.Delete now i s).rows.filter (fun r => r.id == j && r.isLive) =
          s.rows.filter (fun r => r.id == j && r.isLive) :=
        filter_markDel_other now i j hji s.rows
      rw [h2]
      exact hone j (List.mem_cons_of_mem i hj)
    rw [hstep, ih (BaseRepository.Delete now i s) hndt hone', List.length_cons]
    omega

/-- C5: after creating N fresh records into an empty table and soft-deleting
M distinct identifiers among the assigned ones, `Count` returns N − M. -/
theorem C5_count_is_n_minus_m (now₁ now₂ : Nat) (us : List User) (ds : List Nat)
    (hz : ∀ u ∈ us, u.id = 0) (hfresh : ∀ u ∈ us, u.deletedAt = none)
    (hnd : ds.Nodup)
    (hds : ∀ i ∈ ds, i ∈ (BaseRepository.BatchCreate now₁ us DBState.empty).rows.map User.id) :
    BaseRepository.Count (deleteAll now₂ ds (BaseRepository.BatchCreate now₁ us DBState.empty)) =
      us.length - ds.length := by
  obtain ⟨hmap, hmem⟩ := batchCreate_shape now₁ us DBState.empty hz hfresh
  have hmap' : (BaseRepository.BatchCreate now₁ us DBState.empty).rows.map User.id =
      List.range' 1 us.length := by
    simpa [DBState.empty] using hmap
  have hlive : ∀ r ∈ (BaseRepository.BatchCreate now₁ us DBState.empty).rows,
      r.deletedAt = none := by
    intro r hr
    rcases hmem r hr with hin | hdel
    · simp [DBState.empty] at hin
    · exact hdel
  have hnd' : ((BaseRepository.BatchCreate now₁ us DBState.empty).rows.map User.id).Nodup := by
    rw [hmap']
    exact List.nodup_range' _ _
  have hone : ∀ i ∈ ds, ((BaseRepository.BatchCreate now₁ us DBState.empty).rows.filter
      (fun r => r.id == i && r.isLive)).length = 1 :=
    fun i hi => filter_id_live_length_one i _ hnd' hlive (hds i hi)
  have hcount : BaseRepository.Count (BaseRepository.BatchCreate now₁ us DBState.empty) =
      us.length := by
    unfold BaseRepository.Count
    rw [List.filter_eq_self.mpr (fun a ha => by simp [User.isLive, hlive a ha])]
    have hlen := congrArg List.length hmap'
    simpa using hlen
  rw [count_deleteAll now₂ ds _ hnd hone, hcount]

/-- Witness for C5: three creates then two distinct deletes leave one. -/
theorem C5_count_is_n_minus_m_witness :
    BaseRepository.Count (deleteAll 200 [1, 3]
      (BaseRepository.BatchCreate 100
        [newUser "甲" "jia@example.com" 20, newUser "乙" "yi@example.com" 21,
         newUser "丙" "bing@example.com" 22] DBState.empty)) = 1 :=
  C5_count_is_n_minus_m 100 200
    [newUser "甲" "jia@example.com" 20, newUser "乙" "yi@example.com" 21,
     newUser "丙" "bing@example.com" 22] [1, 3]
    (by decide) (by decide) (by decide) (by decide)
